import Mathlib

/-
  Verification development for the x402-builder service (src/index.tsx).

  The service's own logic is embedded shallowly:
  * the two name extractors `extractServiceName` / `extractNameFromBlueprint`,
    including the exact backtracking behaviour of the four JavaScript regexes
    they use (modelled as explicit searches over `List Char`);
  * the `POST /build` handler: validation, blueprint parsing, name selection,
    GitHub-repo provisioning with its one-retry policy, blueprint assembly
    (BASE_ASSERTIONS merge) and dispatch, with the external collaborators
    (GitHub REST, mech marketplace, Math.random) supplied as an environment
    and every outgoing call recorded in a trace;
  * the `GET /status/:jobId` handler over a small JSON value type.

  Modelling conventions:
  * JavaScript strings are modelled as Lean `String`/`List Char`; `.toLowerCase`
    is modelled by the ASCII case map (`Char.toLower`), which agrees with JS on
    all ASCII input (JS non-`u` regexes do not canonicalize non-ASCII to ASCII,
    so case-insensitive matching of ASCII pattern letters is exactly ASCII
    folding);
  * `slice`/`substring` index counts are UTF-16 code units in JS and characters
    here; they agree on all characters below U+10000;
  * JSON values (parsed request bodies, the indexer response) are the
    inductive `Json`; JS truthiness is `jsTruthy`.
-/

namespace X402

/-! ## Character classes used by the regexes in src/index.tsx -/
/-- Lower-case ASCII letter, by code point (as JS regards `[a-z]`). -/
def isLowerL (c : Char) : Bool := 97 ≤ c.toNat && c.toNat ≤ 122

/-- Upper-case ASCII letter, by code point. -/
def isUpperL (c : Char) : Bool := 65 ≤ c.toNat && c.toNat ≤ 90

/-- ASCII digit, by code point. -/
def isDigitL (c : Char) : Bool := 48 ≤ c.toNat && c.toNat ≤ 57

/-- The class `[a-z0-9-]` under the `i` flag, i.e. `[a-zA-Z0-9-]`
    (used by the freeform-name regex, the label regex and the assertion regex). -/
def isClassAlnumDashCI (c : Char) : Bool :=
  isLowerL c || isUpperL c || isDigitL c || c = '-'

/-- The class `[a-z0-9_-]` under the `i` flag (used by the repo-URL regex). -/
def isClassRepoCI (c : Char) : Bool :=
  isLowerL c || isUpperL c || isDigitL c || c = '_' || c = '-'

/-- The class `[a-z0-9]` (no flag effect after lower-casing). -/
def isLowerAlnum (c : Char) : Bool := isLowerL c || isDigitL c

/-- Characters allowed by the spec's name-safety pattern `^[a-z0-9-]+$`. -/
def isLowerAlnumDash (c : Char) : Bool := isLowerL c || isDigitL c || c = '-'

/-- Characters that can actually appear in an extracted blueprint name:
    the repo-URL rule additionally lets `_` through. -/
def isLowerRepoChar (c : Char) : Bool :=
  isLowerL c || isDigitL c || c = '_' || c = '-'

/-- JavaScript `\s`: the WhiteSpace and LineTerminator productions. -/
def isJsWs (c : Char) : Bool :=
  c = ' ' || c = '\t' || c = '\n' || c.toNat = 11 || c.toNat = 12 || c = '\r' ||
  c.toNat = 0xa0 || c.toNat = 0x1680 ||
  (0x2000 ≤ c.toNat && c.toNat ≤ 0x200a) ||
  c.toNat = 0x2028 || c.toNat = 0x2029 || c.toNat = 0x202f ||
  c.toNat = 0x205f || c.toNat = 0x3000 || c.toNat = 0xfeff

/-! ## Deterministic matching machinery for the four regexes

JavaScript `String.prototype.match` finds the leftmost position at which the
pattern matches, trying alternatives of `(x|y|z)` left to right with
backtracking.  Every greedy quantifier in the four patterns of src/index.tsx is
followed by a token drawn from a disjoint character set, so maximal munch is
the unique viable choice for them; the only genuine backtracking is across the
ordered alternatives, which the matchers below try explicitly in source order.
-/
/-- Match a literal pattern case-insensitively (the `i` flag on ASCII literals)
    at the head of the input, returning the rest. -/
def stripCI (pat : List Char) (s : List Char) : Option (List Char) :=
  match pat, s with
  | [], s => some s
  | _ :: _, [] => none
  | p :: ps, c :: cs => if Char.toLower c = Char.toLower p then stripCI ps cs else none

/-- `\s+` with maximal munch: requires at least one JS whitespace character. -/
def ws1 (s : List Char) : Option (List Char) :=
  match s with
  | [] => none
  | c :: cs => if isJsWs c then some (cs.dropWhile isJsWs) else none

/-- A greedy `[class]+`: the maximal non-empty run of class characters and the
    rest of the input. -/
def takeWhile1 (p : Char → Bool) (s : List Char) : Option (List Char × List Char) :=
  match s with
  | [] => none
  | c :: cs => if p c then some (c :: cs.takeWhile p, cs.dropWhile p) else none

/-- Leftmost-match search: try the matcher at index 0, 1, 2, ... as
    `RegExp.exec` does. -/
def searchWith (m : List Char → Option (List Char)) : List Char → Option (List Char)
  | [] => m []
  | c :: t =>
    match m (c :: t) with
    | some r => some r
    | none => searchWith m t

/-! ## The four regexes of src/index.tsx

* regex A (`extractServiceName`, line 390):
  `/(?:build|create)\s+(?:a|an|the)?\s*([a-z0-9-]+)\s+(?:service|api)/i`
* regex B (`extractNameFromBlueprint`, line 402):
  `/github\.com\/[^\/]+\/([a-z0-9_-]+)/i`
* regex C (`extractNameFromBlueprint`, line 411):
  `/(?:service|project|name)[:\s]+([a-z0-9-]+)/i`
* regex D (`extractNameFromBlueprint`, line 417):
  `/(?:the\s+)?([a-z0-9-]+)\s+(?:service|api|endpoint)/i`
-/
/-- Tail of regex A after the optional article: `\s*([a-z0-9-]+)\s+(?:service|api)`. -/
def restA (s : List Char) : Option (List Char) :=
  match takeWhile1 isClassAlnumDashCI (s.dropWhile isJsWs) with
  | none => none
  | some (cap, s1) =>
    match ws1 s1 with
    | none => none
    | some s2 =>
      match stripCI "service".toList s2 <|> stripCI "api".toList s2 with
      | some _ => some cap
      | none => none

/-- Regex A anchored at the current position; alternatives `a`, `an`, `the`,
    none are tried in the regex's order, backtracking into `restA`. -/
def matchAAt (s : List Char) : Option (List Char) :=
  match stripCI "build".toList s <|> stripCI "create".toList s with
  | none => none
  | some s1 =>
    match ws1 s1 with
    | none => none
    | some s2 =>
      ((stripCI "a".toList s2).bind restA) <|> ((stripCI "an".toList s2).bind restA) <|>
        ((stripCI "the".toList s2).bind restA) <|> restA s2

/-- Regex B anchored at the current position:
    `github\.com\/` literally, then the maximal `[^\/]+` run (whose end is
    necessarily the next `/` or the end of input, so no backtracking can occur),
    then `/`, then the capture `([a-z0-9_-]+)`. -/
def matchBAt (s : List Char) : Option (List Char) :=
  match stripCI "github.com/".toList s with
  | none => none
  | some s1 =>
    match takeWhile1 (fun c => !(c = '/' : Bool)) s1 with
    | none => none
    | some (_, s2) =>
      match s2 with
      | '/' :: s3 =>
        match takeWhile1 isClassRepoCI s3 with
        | some (cap, _) => some cap
        | none => none
      | _ => none

/-- Regex C anchored at the current position. -/
def matchCAt (s : List Char) : Option (List Char) :=
  match stripCI "service".toList s <|> stripCI "project".toList s <|>
      stripCI "name".toList s with
  | none => none
  | some s1 =>
    match takeWhile1 (fun c => (c = ':' : Bool) || isJsWs c) s1 with
    | none => none
    | some (_, s2) =>
      match takeWhile1 isClassAlnumDashCI s2 with
      | some (cap, _) => some cap
      | none => none

/-- Tail of regex D: `([a-z0-9-]+)\s+(?:service|api|endpoint)`. -/
def restD (s : List Char) : Option (List Char) :=
  match takeWhile1 isClassAlnumDashCI s with
  | none => none
  | some (cap, s1) =>
    match ws1 s1 with
    | none => none
    | some s2 =>
      match stripCI "service".toList s2 <|> stripCI "api".toList s2 <|>
          stripCI "endpoint".toList s2 with
      | some _ => some cap
      | none => none

/-- Regex D anchored at the current position: the optional `(?:the\s+)?` is
    tried first (greedy), falling back to matching without it. -/
def matchDAt (s : List Char) : Option (List Char) :=
  match stripCI "the".toList s with
  | some s1 =>
    match ws1 s1 with
    | some s2 =>
      match restD s2 with
      | some cap => some cap
      | none => restD s
    | none => restD s
  | none => restD s

/-! ## Leftmost searches for the four regexes -/
/-- `spec.match(regex A)`, returning capture group 1. -/
def searchA (l : List Char) : Option (List Char) := searchWith matchAAt l

/-- `context.match(regex B)`, returning capture group 1. -/
def searchB (l : List Char) : Option (List Char) := searchWith matchBAt l

/-- `context.match(regex C)`, returning capture group 1. -/
def searchC (l : List Char) : Option (List Char) := searchWith matchCAt l

/-- `assertion.match(regex D)`, returning capture group 1. -/
def searchD (l : List Char) : Option (List Char) := searchWith matchDAt l

/-! ## String helpers for the extractors -/
/-- `replace(/[^a-z0-9]+/g, "-")`: each maximal run of non-`[a-z0-9]`
    characters becomes a single hyphen.  The flag records whether the previous
    character was part of such a run. -/
def collapseAux : Bool → List Char → List Char
  | _, [] => []
  | prevDash, c :: rest =>
    if isLowerAlnum c then c :: collapseAux false rest
    else if prevDash then collapseAux true rest
    else '-' :: collapseAux true rest

/-- `replace(/[^a-z0-9]+/g, "-")`. -/
def collapseNonAlnum (l : List Char) : List Char := collapseAux false l

def dropLeadDash : List Char → List Char
  | '-' :: t => t
  | l => l

def dropTrailDash (l : List Char) : List Char :=
  match l.reverse with
  | '-' :: t => t.reverse
  | _ => l

/-- `replace(/^-|-$/g, "")`: removes one leading and one trailing hyphen
    (the anchored alternation matches at most once at each end). -/
def trimEdgeDashes (l : List Char) : List Char := dropTrailDash (dropLeadDash l)

def startsWithL : List Char → List Char → Bool
  | [], _ => true
  | _ :: _, [] => false
  | p :: ps, c :: cs => (p = c : Bool) && startsWithL ps cs

def endsWithL (suf l : List Char) : Bool := startsWithL suf.reverse l.reverse

/-- `String.prototype.includes`. -/
def containsSubL (pat : List Char) : List Char → Bool
  | [] => startsWithL pat []
  | c :: t => startsWithL pat (c :: t) || containsSubL pat t

/-- `message.includes(pat)` on Lean strings. -/
def containsSub (s pat : String) : Bool := containsSubL pat.toList s.toList

/-- `name.replace(/^(x402-|the-|my-)/, '').replace(/(-service|-api)$/, '')`.
    Both regexes are anchored and their alternatives are mutually exclusive,
    so each `replace` strips at most one affix. -/
def stripRepoAffixes (l : List Char) : List Char :=
  let l1 :=
    if startsWithL "x402-".toList l then l.drop 5
    else if startsWithL "the-".toList l then l.drop 4
    else if startsWithL "my-".toList l then l.drop 3
    else l
  if endsWithL "-service".toList l1 then l1.take (l1.length - 8)
  else if endsWithL "-api".toList l1 then l1.take (l1.length - 4)
  else l1

/-! ## extractServiceName (src/index.tsx lines 388-395) -/
/-- `extractServiceName(spec)`: the regex-A capture lower-cased and stripped to
    `[a-z0-9-]`, else the first 30 characters lower-cased with non-alphanumeric
    runs collapsed to hyphens and edge hyphens trimmed, else `"x402-service"`. -/
def extractServiceName (spec : String) : String :=
  match searchA spec.toList with
  | some cap => String.mk ((cap.map Char.toLower).filter isLowerAlnumDash)
  | none =>
    let fb := trimEdgeDashes (collapseNonAlnum ((spec.toList.take 30).map Char.toLower))
    if fb.isEmpty then "x402-service" else String.mk fb

/-! ## JSON values and JS truthiness -/
/-- Parsed JSON values (`JSON.parse` output / `c.req.json()` bodies). -/
inductive Json where
  | null : Json
  | bool (b : Bool) : Json
  | num (n : Int) : Json
  | str (s : String) : Json
  | arr (elts : List Json) : Json
  | obj (fields : List (String × Json)) : Json
deriving Repr

def lookupField : List (String × Json) → String → Option Json
  | [], _ => none
  | (k, v) :: rest, key => if k = key then some v else lookupField rest key

/-- Property access `j[key]`: `none` models JS `undefined` (also the result of
    accessing a property on a non-object primitive; access on `null` throws and
    is handled at each use site).  Objects are assumed duplicate-key free, as
    `JSON.parse` keeps only one binding per key. -/
def getField : Json → String → Option Json
  | .obj fs, key => lookupField fs key
  | _, _ => none

/-- JavaScript truthiness of a JSON value. -/
def jsTruthy : Json → Bool
  | .null => false
  | .bool b => b
  | .num n => !(n = 0 : Bool)
  | .str s => !(s = "" : Bool)
  | .arr _ => true
  | .obj _ => true

/-- Truthiness of an optional property (`undefined` is falsy). -/
def truthyOpt : Option Json → Bool
  | none => false
  | some j => jsTruthy j

/-- String interpolation of a JSON value into a template literal; only the
    scalar cases are exercised by the service. -/
def jsDisplay : Json → String
  | .null => "null"
  | .bool true => "true"
  | .bool false => "false"
  | .num n => toString n
  | .str s => s
  | .arr _ => ""
  | .obj _ => "[object Object]"

/-! ## extractNameFromBlueprint (src/index.tsx lines 398-428) -/
/-- `const context = blueprint.context || ''`, then every later use calls
    `context.match`: a truthy non-string context makes that call throw. -/
def contextOfBlueprint (bp : Json) : Except String String :=
  match getField bp "context" with
  | some v =>
    if jsTruthy v then
      match v with
      | .str s => Except.ok s
      | _ => Except.error "TypeError: context.match is not a function"
    else Except.ok ""
  | none => Except.ok ""

/-- Rule 1: repo-URL capture, lower-cased, affixes stripped, length ≥ 2. -/
def ruleOne (context : List Char) : Option (List Char) :=
  match searchB context with
  | some cap =>
    if 2 ≤ (stripRepoAffixes (cap.map Char.toLower)).length
    then some (stripRepoAffixes (cap.map Char.toLower)) else none
  | none => none

/-- Rule 2: `service:`/`project:`/`name:` label capture, lower-cased. -/
def ruleTwo (context : List Char) : Option (List Char) :=
  match searchC context with
  | some cap => some (cap.map Char.toLower)
  | none => none

/-- Generic words skipped by rule 3 (src/index.tsx line 421). -/
def stopWords : List String := ["the", "this", "a", "an", "hono", "x402"]

/-- Rule 3: scan the assertions in order; the leftmost regex-D capture of each
    is considered once, accepted if longer than 2 and not a stop word.
    A missing or non-string `assertion` property makes `.match` throw. -/
def scanAssertions : List Json → Except String String
  | [] => Except.ok "x402-service"
  | el :: rest =>
    match getField el "assertion" with
    | some (.str a) =>
      match searchD a.toList with
      | some cap =>
        if 2 < cap.length then
          if stopWords.contains (String.mk (cap.map Char.toLower)) then scanAssertions rest
          else Except.ok (String.mk (cap.map Char.toLower))
        else scanAssertions rest
      | none => scanAssertions rest
    | _ => Except.error "TypeError: assertion.assertion.match is not a function"

/-- The fallback chain of `extractNameFromBlueprint` after the context has
    been read: rule 1 (repo URL), rule 2 (label), rule 3 (assertion scan),
    rule 4 (the default). -/
def extractFromContextAndAssertions (bp : Json) (context : String) : Except String String :=
  match ruleOne context.toList with
  | some name => Except.ok (String.mk name)
  | none =>
    match ruleTwo context.toList with
    | some name => Except.ok (String.mk name)
    | none =>
      match getField bp "assertions" with
      | some (Json.arr l) => scanAssertions l
      | _ => Except.error "TypeError: blueprint.assertions is not iterable"

/-- `extractNameFromBlueprint(blueprint)` over a parsed JSON blueprint.
    `Except.error` models an uncaught TypeError thrown by the JS function. -/
def extractNameFromBlueprintJ (bp : Json) : Except String String :=
  match contextOfBlueprint bp with
  | .error e => Except.error e
  | .ok context => extractFromContextAndAssertions bp context

/-! ## BASE_ASSERTIONS (src/index.tsx lines 45-130), as parsed JSON values -/
def mkAssertion (id assertion : String) (dos donts : List String) (commentary : String) : Json :=
  Json.obj [
    ("id", Json.str id),
    ("assertion", Json.str assertion),
    ("examples", Json.obj [
      ("do", Json.arr (dos.map Json.str)),
      ("dont", Json.arr (donts.map Json.str))]),
    ("commentary", Json.str commentary)]

def BASE_ASSERTIONS : List Json := [
  mkAssertion "BASE-SCAFFOLD-001"
    "Scaffold as Hono app with x402-hono middleware. Create .gitignore FIRST before any yarn install."
    ["Create .gitignore first excluding node_modules/, dist/, .env, *.log",
     "Use x402-hono paymentMiddleware for paid routes",
     "Create tsconfig.json with moduleResolution: \x27bundler\x27 (required for x402-hono)",
     "Include package.json with hono, @hono/node-server, x402-hono dependencies"]
    ["Use Express, Fastify, or other frameworks",
     "Skip .gitignore before yarn install (causes token overflow)",
     "Use moduleResolution: \x27nodenext\x27 (x402-hono has broken type exports)"]
    "Hono + x402-hono is the standard x402 stack. .gitignore must be created FIRST.",
  mkAssertion "BASE-X402-001"
    "Paid endpoints must use x402-hono paymentMiddleware with PAYMENT_WALLET_ADDRESS from env."
    ["Configure paymentMiddleware with price and network from env",
     "Return proper 402 Payment Required response",
     "Use \x27base\x27 network for mainnet, \x27base-sepolia\x27 for testnet"]
    ["Hardcode wallet addresses",
     "Skip payment verification",
     "Allow unpaid access to paid endpoints"]
    "x402 payment is the monetization mechanism for all paid endpoints.",
  mkAssertion "BASE-DEPLOY-001"
    "Include railway.json for Railway deployment with NIXPACKS builder and health check."
    ["Include railway.json with NIXPACKS builder",
     "Set healthcheckPath to \x27/health\x27",
     "Document required env vars in .env.example"]
    ["Omit deployment config",
     "Hardcode environment-specific values"]
    "Railway deployment config enables one-click deployment.",
  mkAssertion "BASE-BUILD-001"
    "Service must compile: \x27yarn install\x27 and \x27yarn build\x27 must both succeed without errors."
    ["Run yarn install and verify completion",
     "Run yarn build and verify TypeScript compiles",
     "Fix type errors before proceeding"]
    ["Proceed if build fails",
     "Use ts-ignore to suppress errors",
     "Skip build verification"]
    "Build verification catches issues before runtime.",
  mkAssertion "BASE-RUN-001"
    "Service must start: \x27yarn start\x27 must launch server and respond to /health with 200 OK."
    ["Run yarn start and verify server starts",
     "Test curl http://localhost:PORT/health returns 200",
     "Include GET /health endpoint returning \x7b status: \x27ok\x27 \x7d"]
    ["Assume server starts without testing",
     "Skip health endpoint"]
    "Runtime verification confirms the service actually works."]

/-- The id strings of the base assertions (value of
    `new Set(BASE_ASSERTIONS.map(a => a.id))`, line 249). -/
def baseIdStrings : List String :=
  ["BASE-SCAFFOLD-001", "BASE-X402-001", "BASE-DEPLOY-001", "BASE-BUILD-001", "BASE-RUN-001"]

/-- The id of an assertion value, when it is a string. -/
def idStrOf (a : Json) : Option String :=
  match getField a "id" with
  | some (Json.str s) => some s
  | _ => none

/-- `baseIds.has(a.id)` (line 250): a SameValueZero hit is possible only when
    `a.id` is one of the five base id strings. -/
def isBaseIdDup (a : Json) : Bool :=
  match getField a "id" with
  | some (Json.str s) => baseIdStrings.contains s
  | _ => false

/-- `[...BASE_ASSERTIONS, ...userAssertionsFiltered]` (lines 249-253). -/
def mergeAssertions (user : List Json) : List Json :=
  BASE_ASSERTIONS ++ user.filter (fun a => !(isBaseIdDup a))

/-! ## Blueprint assembly (src/index.tsx lines 243-279) -/
/-- The final blueprint object sent to the dispatcher. -/
structure FinalBlueprint where
  assertions : List Json
  context : String
deriving Repr

def isNullJ : Json → Bool
  | Json.null => true
  | _ => false

/-- Context of the structured path (lines 254-264). -/
def structuredContext (userContext : Option Json) (repoUrl : String) : String :=
  String.intercalate "\n" [
    "## Service Specification",
    "",
    (if truthyOpt userContext then jsDisplay (userContext.getD Json.null)
     else "(No additional context provided)"),
    "",
    "## Target Repository",
    repoUrl,
    "",
    "## Build Instructions",
    "Use the BASE-* assertions for scaffolding. Use service-specific assertions for functionality."]

/-- Context of the freeform path (lines 270-277). -/
def freeformContext (spec : String) (repoUrl : String) : String :=
  String.intercalate "\n" [
    "## Service Specification",
    "",
    spec,
    "",
    "## Target Repository",
    repoUrl]

/-- Structured-path assembly.  Reading `a.id` during the filter throws a
    TypeError when the caller's assertions array contains `null` (the only
    JSON value whose property access throws); the error is caught by the
    handler's try/catch. -/
def assembleStructured (ub : Json) (repoUrl : String) : Except String FinalBlueprint :=
  let userAssertions := match getField ub "assertions" with
    | some (Json.arr l) => l
    | _ => []
  if userAssertions.any isNullJ then
    Except.error "TypeError: Cannot read properties of null (reading id)"
  else
    Except.ok ⟨mergeAssertions userAssertions, structuredContext (getField ub "context") repoUrl⟩

/-- Freeform-path assembly (lines 266-279). -/
def assembleFreeform (spec : String) (repoUrl : String) : FinalBlueprint :=
  ⟨BASE_ASSERTIONS, freeformContext spec repoUrl⟩

/-! ## The POST /build handler (src/index.tsx lines 188-326)

The payment middleware, CORS and HTTP plumbing are external; the handler body
is modelled from `const body = await c.req.json()` on.  Fields that JS leaves
duck-typed are modelled at the types the service's interface declares
(`spec`/`name` strings, the blueprint either a JSON value or a JSON-encoded
string whose `JSON.parse` outcome is part of the input). -/
structure RepoInfo where
  html_url : String
  clone_url : String
deriving DecidableEq, Repr

structure Config where
  githubToken : Option String
  mechAddress : Option String
  privateKey : Option String
deriving DecidableEq, Repr

def optStrTruthy : Option String → Bool
  | none => false
  | some s => !(s = "" : Bool)

/-- `!githubToken || !mechAddress || !privateKey` negated (line 205). -/
def configured (cfg : Config) : Bool :=
  optStrTruthy cfg.githubToken && optStrTruthy cfg.mechAddress && optStrTruthy cfg.privateKey

/-- The `blueprint` body field: absent, a JSON-encoded string (with the
    outcome of `JSON.parse` recorded; `none` means parsing throws), or a
    JSON value. -/
inductive BlueprintField where
  | absent
  | strVal (raw : String) (parsed : Option Json)
  | objVal (j : Json)

structure BuildBody where
  spec : Option String
  blueprint : BlueprintField
  name : Option String

def specTruthy : Option String → Bool
  | none => false
  | some s => !(s = "" : Bool)

def bpTruthy : BlueprintField → Bool
  | .absent => false
  | .strVal raw _ => !(raw = "" : Bool)
  | .objVal j => jsTruthy j

/-- Responses the handler can produce (the status code is part of the
    constructor). -/
inductive BuildResponse where
  | badRequest (error : String)
  | configError (error : String)
  | buildFailed (details : String)
  | internalError
  | created (jobId : String) (jobDefinitionId : String) (repoUrl : String)
      (statusUrl : String) (explorerUrl : String)
      (baseCount userCount totalCount : Nat)
deriving DecidableEq, Repr

/-- Calls made to external collaborators, in order. -/
inductive ExtCall where
  | ghCreate (name : String)
  | dispatchJob (jobName : String)
deriving DecidableEq, Repr

/-- The handler's environment: outcomes of the external collaborators and the
    process randomness. -/
structure BuildEnv where
  gh : String → Except String RepoInfo
  randBase36 : String
  jobDefId : String
  dispatchIds : Except String (List String)
  reqOrigin : String

structure BuildOutcome where
  response : BuildResponse
  calls : List ExtCall
deriving Repr

/-- `Math.random().toString(36).substring(2, 5).toUpperCase()` (line 226). -/
def shortIdOf (rand : String) : String :=
  String.mk (((rand.toList.drop 2).take 3).map Char.toUpper)

def lowerStr (s : String) : String := String.mk (s.toList.map Char.toLower)

/-- Validated request: which of the two input modes applies. -/
inductive ValidMode where
  | freeform (spec : String)
  | structured (ub : Json)

/-- `!userBlueprint?.assertions || !Array.isArray(userBlueprint.assertions)`
    (line 214): accepted exactly when `assertions` is an array. -/
def validBlueprintJson (j : Json) : Bool :=
  match getField j "assertions" with
  | some (Json.arr _) => true
  | _ => false

/-- Lines 196-220: mutual exclusion of spec/blueprint, configuration check,
    blueprint parsing and shape check, in source order. -/
def validatePhase (cfg : Config) (body : BuildBody) : Except BuildResponse ValidMode :=
  if !(specTruthy body.spec) && !(bpTruthy body.blueprint) then
    Except.error (.badRequest "Either \x27spec\x27 or \x27blueprint\x27 is required")
  else if specTruthy body.spec && bpTruthy body.blueprint then
    Except.error (.badRequest "Provide either \x27spec\x27 or \x27blueprint\x27, not both")
  else if !(configured cfg) then
    Except.error (.configError "Server not configured for dispatch")
  else if bpTruthy body.blueprint then
    match body.blueprint with
    | .strVal _ none => Except.error (.badRequest "Invalid blueprint JSON")
    | .strVal _ (some j) =>
      if validBlueprintJson j then Except.ok (.structured j)
      else Except.error (.badRequest "Blueprint must have an \x27assertions\x27 array")
    | .objVal j =>
      if validBlueprintJson j then Except.ok (.structured j)
      else Except.error (.badRequest "Blueprint must have an \x27assertions\x27 array")
    | .absent => Except.error (.badRequest "Invalid blueprint JSON")
  else
    Except.ok (.freeform (body.spec.getD ""))

/-- Name extraction for the chosen mode (line 223-225).  A TypeError thrown by
    `extractNameFromBlueprint` happens outside the try/catch, so it surfaces as
    the framework's generic 500. -/
def extractedName (mode : ValidMode) : Except BuildResponse String :=
  match mode with
  | .freeform spec => Except.ok (extractServiceName spec)
  | .structured ub =>
    match extractNameFromBlueprintJ ub with
    | .ok n => Except.ok n
    | .error _ => Except.error .internalError

/-- `const serviceName = name || (...)` (line 223). -/
def namePhase (mode : ValidMode) (name : Option String) : Except BuildResponse String :=
  match name with
  | some n => if !(n = "" : Bool) then Except.ok n else extractedName mode
  | none => extractedName mode

/-- Repo creation with the one-retry-on-name-collision policy
    (lines 230-241). -/
def repoPhase (serviceName suffixLower : String) (gh : String → Except String RepoInfo) :
    List ExtCall × Except String (String × RepoInfo) :=
  match gh serviceName with
  | .ok repo => ([.ghCreate serviceName], .ok (serviceName, repo))
  | .error m =>
    if containsSub m "already exists" then
      match gh (serviceName ++ "-" ++ suffixLower) with
      | .ok repo =>
        ([.ghCreate serviceName, .ghCreate (serviceName ++ "-" ++ suffixLower)],
         .ok (serviceName ++ "-" ++ suffixLower, repo))
      | .error m2 =>
        ([.ghCreate serviceName, .ghCreate (serviceName ++ "-" ++ suffixLower)], .error m2)
    else ([.ghCreate serviceName], .error m)

/-- `userBlueprint?.assertions.length || 0` (line 317). -/
def userCountOf : ValidMode → Nat
  | .freeform _ => 0
  | .structured ub =>
    match getField ub "assertions" with
    | some (Json.arr l) => l.length
    | _ => 0

/-- The try/catch body after name selection: repo creation, assembly,
    dispatch, success response (lines 229-325). -/
def afterName (mode : ValidMode) (serviceName : String) (env : BuildEnv) : BuildOutcome :=
  match repoPhase serviceName (lowerStr (shortIdOf env.randBase36)) env.gh with
  | (calls, .error m) => ⟨.buildFailed m, calls⟩
  | (calls, .ok (_, repo)) =>
    let finalE : Except String FinalBlueprint :=
      match mode with
      | .freeform spec => Except.ok (assembleFreeform spec repo.html_url)
      | .structured ub => assembleStructured ub repo.html_url
    match finalE with
    | .error m => ⟨.buildFailed m, calls⟩
    | .ok final =>
      let calls2 := calls ++ [.dispatchJob ("Build: " ++ serviceName)]
      match env.dispatchIds with
      | .error m => ⟨.buildFailed m, calls2⟩
      | .ok ids =>
        match ids with
        | [] => ⟨.buildFailed "Dispatch failed: no request ID", calls2⟩
        | rid :: _ =>
          if rid = "" then ⟨.buildFailed "Dispatch failed: no request ID", calls2⟩
          else
            ⟨.created rid env.jobDefId repo.html_url
               (env.reqOrigin ++ "/status/" ++ rid)
               ("https://explorer.jinn.network/workstreams/" ++ rid)
               BASE_ASSERTIONS.length (userCountOf mode) final.assertions.length,
             calls2⟩

/-- The whole `POST /build` handler. -/
def buildHandler (cfg : Config) (body : BuildBody) (env : BuildEnv) : BuildOutcome :=
  match validatePhase cfg body with
  | .error r => ⟨r, []⟩
  | .ok mode =>
    match namePhase mode body.name with
    | .error r => ⟨r, []⟩
    | .ok serviceName => afterName mode serviceName env

/-! ## The GET /status/:jobId handler (src/index.tsx lines 329-360) -/
inductive StatusResponse where
  | ok200 (jobId : String) (status : String) (reportUrl : Option String)
  | err500 (error : String) (details : String)
deriving DecidableEq, Repr

/-- `data?.data?.request` on the parsed indexer response. -/
def requestOf (data : Json) : Option Json :=
  match getField data "data" with
  | some d => getField d "request"
  | none => none

/-- The status handler, given the outcome of the indexer POST (a thrown fetch
    or JSON-parse error, or the parsed response body). -/
def statusHandler (jobId : String) (outcome : Except String Json) : StatusResponse :=
  match outcome with
  | .error m => .err500 "Status query failed" m
  | .ok data =>
    match requestOf data with
    | none => .ok200 jobId "pending" none
    | some r =>
      if !(jsTruthy r) then .ok200 jobId "pending" none
      else if truthyOpt (getField r "delivered") && truthyOpt (getField r "deliveryIpfsHash") then
        .ok200 jobId "completed" (some ("https://gateway.autonolas.tech/ipfs/" ++
          jsDisplay ((getField r "deliveryIpfsHash").getD Json.null)))
      else .ok200 jobId "in_progress" none

/-! ## Helper constructions and lemmas -/
/-- A successful indexer response body `{"data": {"request": r}}` (the GraphQL
    wire shape of the `request(id:)` query). -/
def mkIndexerBody (r : Json) : Json := Json.obj [("data", Json.obj [("request", r)])]

/-- Each of the five base id strings identifies a unique element of
    `BASE_ASSERTIONS` (its "base version"). -/
def baseVersionOf (b : String) : Json :=
  (BASE_ASSERTIONS.find? (fun a => idStrOf a == some b)).getD Json.null

/-! ## Well-typed blueprints (the shape assumed by claim C3) -/
/-- A blueprint whose `context` is a string (or absent/falsy) and whose
    `assertions` is an array of entries each carrying a string `assertion`
    text: the shape on which `extractNameFromBlueprint` cannot throw. -/
def wellTypedBlueprint (bp : Json) : Bool :=
  (match getField bp "context" with
   | some v => !(jsTruthy v) || (match v with | Json.str _ => true | _ => false)
   | none => true)
  && (match getField bp "assertions" with
      | some (Json.arr l) =>
        l.all (fun el => match getField el "assertion" with
          | some (Json.str _) => true
          | _ => false)
      | _ => false)

/-! ## Call-trace lemmas about the build handler -/
/-- Base-36 digits, the alphabet of `Math.random().toString(36)` fractions. -/
def isBase36Digit (c : Char) : Bool := isDigitL c || isLowerL c

/-! ## Theorems -/

theorem toNat_ofNat_valid {n : Nat} (h : n.isValidChar) : (Char.ofNat n).toNat = n := by
  rw [Char.ofNat, dif_pos h]
  simp [Char.ofNatAux, Char.toNat, UInt32.toNat]

theorem toNat_toLower (c : Char) :
    (Char.toLower c).toNat = if 65 ≤ c.toNat ∧ c.toNat ≤ 90 then c.toNat + 32 else c.toNat := by
  unfold Char.toLower
  split
  · next h =>
    rw [if_pos (by omega)]
    exact toNat_ofNat_valid (Or.inl (by omega))
  · next h =>
    rw [if_neg (by omega)]

theorem toNat_toUpper (c : Char) :
    (Char.toUpper c).toNat = if 97 ≤ c.toNat ∧ c.toNat ≤ 122 then c.toNat - 32 else c.toNat := by
  unfold Char.toUpper
  split
  · next h =>
    rw [if_pos (by omega)]
    exact toNat_ofNat_valid (Or.inl (by omega))
  · next h =>
    rw [if_neg (by omega)]

theorem eq_dash_iff_toNat (c : Char) : (c = '-') = (c.toNat = 45) := by
  apply propext
  constructor
  · intro h; subst h; rfl
  · intro h
    exact Char.ext (UInt32.ext h)

theorem eq_underscore_iff_toNat (c : Char) : (c = '_') = (c.toNat = 95) := by
  apply propext
  constructor
  · intro h; subst h; rfl
  · intro h
    exact Char.ext (UInt32.ext h)

/-- Lower-casing a `[a-z0-9-]/i` character lands in `[a-z0-9-]`. -/
theorem toLower_classAlnumDash {c : Char} (h : isClassAlnumDashCI c = true) :
    isLowerAlnumDash (Char.toLower c) = true := by
  simp only [isClassAlnumDashCI, isLowerL, isUpperL, isDigitL, Bool.or_eq_true,
    Bool.and_eq_true, decide_eq_true_eq, eq_dash_iff_toNat] at h
  simp only [isLowerAlnumDash, isLowerL, isDigitL, Bool.or_eq_true, Bool.and_eq_true,
    decide_eq_true_eq, eq_dash_iff_toNat, toNat_toLower]
  split <;> omega

/-- Lower-casing a `[a-z0-9_-]/i` character lands in `[a-z0-9_-]`. -/
theorem toLower_classRepo {c : Char} (h : isClassRepoCI c = true) :
    isLowerRepoChar (Char.toLower c) = true := by
  simp only [isClassRepoCI, isLowerL, isUpperL, isDigitL, Bool.or_eq_true,
    Bool.and_eq_true, decide_eq_true_eq, eq_dash_iff_toNat, eq_underscore_iff_toNat] at h
  simp only [isLowerRepoChar, isLowerL, isDigitL, Bool.or_eq_true, Bool.and_eq_true,
    decide_eq_true_eq, eq_dash_iff_toNat, eq_underscore_iff_toNat, toNat_toLower]
  split <;> omega

/-- `[a-z0-9-]` is contained in `[a-z0-9_-]`. -/
theorem lowerAlnumDash_le_repo {c : Char} (h : isLowerAlnumDash c = true) :
    isLowerRepoChar c = true := by
  simp only [isLowerAlnumDash, Bool.or_eq_true] at h
  simp only [isLowerRepoChar, Bool.or_eq_true]
  tauto

theorem takeWhile1_spec {p : Char → Bool} {s cap rest : List Char}
    (h : takeWhile1 p s = some (cap, rest)) : cap ≠ [] ∧ cap.all p = true := by
  match s with
  | [] => simp [takeWhile1] at h
  | c :: cs =>
    simp only [takeWhile1] at h
    split at h
    · next hc =>
      injection h with h'
      injection h' with h1 h2
      subst h1
      refine ⟨by simp, ?_⟩
      simp only [List.all_cons, hc, Bool.true_and]
      exact List.all_takeWhile
    · exact absurd h (by simp)

theorem searchWith_spec {m : List Char → Option (List Char)} {P : List Char → Prop}
    (hm : ∀ s cap, m s = some cap → P cap) :
    ∀ {l cap}, searchWith m l = some cap → P cap := by
  intro l
  induction l with
  | nil => intro cap h; exact hm [] cap h
  | cons c t ih =>
    intro cap h
    simp only [searchWith] at h
    split at h
    · next r hr => injection h with h'; subst h'; exact hm (c :: t) r hr
    · exact ih h

theorem restA_spec {s cap : List Char} (h : restA s = some cap) :
    cap ≠ [] ∧ cap.all isClassAlnumDashCI = true := by
  unfold restA at h
  split at h
  · exact absurd h (by simp)
  · next cap' s1 heq =>
    split at h
    · exact absurd h (by simp)
    · split at h
      · injection h with h'
        subst h'
        exact takeWhile1_spec heq
      · exact absurd h (by simp)

theorem matchAAt_spec (s cap : List Char) (h : matchAAt s = some cap) :
    cap ≠ [] ∧ cap.all isClassAlnumDashCI = true := by
  unfold matchAAt at h
  split at h
  · exact absurd h (by simp)
  · split at h
    · exact absurd h (by simp)
    · rcases (Option.orElse_eq_some _ _ _).mp h with h1 | ⟨_, h1⟩
      · rcases Option.bind_eq_some.mp h1 with ⟨t, _, ht⟩
        exact restA_spec ht
      · rcases (Option.orElse_eq_some _ _ _).mp h1 with h2 | ⟨_, h2⟩
        · rcases Option.bind_eq_some.mp h2 with ⟨t, _, ht⟩
          exact restA_spec ht
        · rcases (Option.orElse_eq_some _ _ _).mp h2 with h3 | ⟨_, h3⟩
          · rcases Option.bind_eq_some.mp h3 with ⟨t, _, ht⟩
            exact restA_spec ht
          · exact restA_spec h3

theorem matchBAt_spec (s cap : List Char) (h : matchBAt s = some cap) :
    cap ≠ [] ∧ cap.all isClassRepoCI = true := by
  unfold matchBAt at h
  split at h
  · exact absurd h (by simp)
  · split at h
    · exact absurd h (by simp)
    · split at h
      · split at h
        · next heq =>
          injection h with h'
          subst h'
          exact (takeWhile1_spec heq)
        · exact absurd h (by simp)
      · exact absurd h (by simp)

theorem matchCAt_spec (s cap : List Char) (h : matchCAt s = some cap) :
    cap ≠ [] ∧ cap.all isClassAlnumDashCI = true := by
  unfold matchCAt at h
  split at h
  · exact absurd h (by simp)
  · split at h
    · exact absurd h (by simp)
    · split at h
      · next heq =>
        injection h with h'
        subst h'
        exact takeWhile1_spec heq
      · exact absurd h (by simp)

theorem restD_spec {s cap : List Char} (h : restD s = some cap) :
    cap ≠ [] ∧ cap.all isClassAlnumDashCI = true := by
  unfold restD at h
  split at h
  · exact absurd h (by simp)
  · next cap' s1 heq =>
    split at h
    · exact absurd h (by simp)
    · split at h
      · injection h with h'
        subst h'
        exact takeWhile1_spec heq
      · exact absurd h (by simp)

theorem matchDAt_spec (s cap : List Char) (h : matchDAt s = some cap) :
    cap ≠ [] ∧ cap.all isClassAlnumDashCI = true := by
  unfold matchDAt at h
  split at h
  · split at h
    · split at h
      · next heq =>
        injection h with h'
        subst h'
        exact restD_spec heq
      · exact restD_spec h
    · exact restD_spec h
  · exact restD_spec h

/-- `baseIdStrings` really is `BASE_ASSERTIONS.map(a => a.id)`. -/
theorem baseIdStrings_eq_map :
    BASE_ASSERTIONS.map (fun a => getField a "id") = baseIdStrings.map (fun s => some (Json.str s)) := by
  rfl

/-! ## Claims about the status endpoint -/
/-- Claim C5: a status query mapping: an indexer response with no matching
    record (GraphQL `request: null`) yields 200 `pending`; a record present but
    not delivered yields `in_progress` (whatever the hash field holds); a
    delivered record with a (non-empty) content hash `h` yields `completed`
    with `reportUrl` the Autonolas gateway prefix followed by `h`; a transport
    failure yields a 500 with an `error` field and never a 200 status, in
    particular never `pending`. -/
theorem statusHandler_mapping (jid h m : String) (hv : Json) (hne : h ≠ "") :
    statusHandler jid (.ok (mkIndexerBody Json.null)) = .ok200 jid "pending" none
    ∧ statusHandler jid (.ok (mkIndexerBody (Json.obj
        [("id", Json.str jid), ("delivered", Json.bool false), ("deliveryIpfsHash", hv)])))
        = .ok200 jid "in_progress" none
    ∧ statusHandler jid (.ok (mkIndexerBody (Json.obj
        [("id", Json.str jid), ("delivered", Json.bool true), ("deliveryIpfsHash", Json.str h)])))
        = .ok200 jid "completed" (some ("https://gateway.autonolas.tech/ipfs/" ++ h))
    ∧ statusHandler jid (.error m) = .err500 "Status query failed" m
    ∧ (∀ st ru, statusHandler jid (.error m) ≠ .ok200 jid st ru) := by
  refine ⟨?_, ?_, ?_, rfl, ?_⟩
  · rfl
  · simp [statusHandler, mkIndexerBody, requestOf, getField, lookupField, jsTruthy, truthyOpt]
  · simp [statusHandler, mkIndexerBody, requestOf, getField, lookupField, jsTruthy, truthyOpt,
      jsDisplay, hne]
  · intro st ru
    simp [statusHandler]

theorem statusHandler_mapping_witness :
    statusHandler "J1" (.ok (mkIndexerBody (Json.obj
        [("id", Json.str "J1"), ("delivered", Json.bool true),
         ("deliveryIpfsHash", Json.str "Qm123")])))
      = .ok200 "J1" "completed" (some "https://gateway.autonolas.tech/ipfs/Qm123") :=
  (statusHandler_mapping "J1" "Qm123" "m" Json.null (by decide)).2.2.1

/-- Claim C9: when the indexer endpoint responds successfully but the JSON body
    has no `data.request` value (a GraphQL error body, or any unrelated JSON),
    the status handler returns 200 `pending` — the very same response as for an
    unknown job (`request: null`). -/
theorem statusHandler_missing_field (jid : String) (body : Json)
    (hmiss : requestOf body = none) :
    statusHandler jid (.ok body) = .ok200 jid "pending" none
    ∧ statusHandler jid (.ok body) = statusHandler jid (.ok (mkIndexerBody Json.null)) := by
  constructor
  · simp [statusHandler, hmiss]
  · simp [statusHandler, hmiss]
    rfl

theorem statusHandler_missing_field_witness :
    statusHandler "J2" (.ok (Json.obj [("errors",
        Json.arr [Json.obj [("message", Json.str "syntax error")]])]))
      = .ok200 "J2" "pending" none :=
  (statusHandler_missing_field "J2"
    (Json.obj [("errors", Json.arr [Json.obj [("message", Json.str "syntax error")]])]) rfl).1

/-! ## Claim about empty-string spec handling -/
/-- Claim C10: the mutual-exclusion validation treats `spec: ""` as absent:
    with any blueprint field the handler behaves exactly as if `spec` were not
    supplied at all (in particular the blueprint path proceeds and the
    both-supplied rejection is impossible), and with no blueprint the request
    is rejected 400 with the neither-supplied error. -/
theorem emptySpec_as_absent (cfg : Config) (env : BuildEnv) (bp : BlueprintField)
    (nm : Option String) :
    buildHandler cfg ⟨some "", bp, nm⟩ env = buildHandler cfg ⟨none, bp, nm⟩ env
    ∧ validatePhase cfg ⟨some "", bp, nm⟩
        ≠ Except.error (.badRequest "Provide either \x27spec\x27 or \x27blueprint\x27, not both")
    ∧ (buildHandler cfg ⟨some "", .absent, nm⟩ env).response
        = .badRequest "Either \x27spec\x27 or \x27blueprint\x27 is required" := by
  have hval : validatePhase cfg ⟨some "", bp, nm⟩ = validatePhase cfg ⟨none, bp, nm⟩ := by
    simp [validatePhase, specTruthy]
  refine ⟨?_, ?_, ?_⟩
  · simp [buildHandler, hval]
  · simp only [validatePhase, specTruthy, Bool.not_false, Bool.not_true, Bool.false_and,
      Bool.true_and, decide_True, decide_False]
    split <;> try simp
    split <;> try simp
    split <;> try simp
    rcases bp with _ | ⟨raw, _ | j⟩ | j <;> simp <;> split <;> simp
  · simp [buildHandler, validatePhase, specTruthy, bpTruthy]

/-! ## Lemmas about the id-based merge -/
theorem idStrOf_eq_some {a : Json} {b : String} :
    idStrOf a = some b ↔ getField a "id" = some (Json.str b) := by
  unfold idStrOf
  rcases h : getField a "id" with _ | j
  · simp
  · rcases j <;> simp

theorem isBaseIdDup_of_idStr {a : Json} {b : String} (hid : idStrOf a = some b)
    (hb : b ∈ baseIdStrings) : isBaseIdDup a = true := by
  unfold isBaseIdDup
  rw [idStrOf_eq_some.mp hid]
  simpa using hb

theorem base_version_unique {b : String} (hb : b ∈ baseIdStrings) :
    ∀ a ∈ BASE_ASSERTIONS, idStrOf a = some b → a = baseVersionOf b := by
  fin_cases hb <;> (intro a ha hid; fin_cases ha) <;>
    first
      | rfl
      | exact absurd hid (by decide)

theorem countP_filtered_eq_zero {b : String} (hb : b ∈ baseIdStrings) (user : List Json) :
    (user.filter (fun a => !(isBaseIdDup a))).countP (fun a => idStrOf a == some b) = 0 := by
  rw [List.countP_eq_zero]
  intro a ha hpa
  have h2 := (List.mem_filter.mp ha).2
  have hid : idStrOf a = some b := by simpa using hpa
  rw [isBaseIdDup_of_idStr hid hb] at h2
  simp at h2

/-! ## Claim C1: de-duplication against the base set -/
/-- Claim C1: whenever a structured build request's assertion list contains an
    entry whose id equals a base assertion's id, the assembled list (i) is
    exactly the base block followed by the id-filtered caller block, each in
    its original order, (ii) contains exactly one entry carrying that id,
    (iii) that entry is the base version, and (iv) every caller entry carrying
    the id has been dropped from the retained caller block.  The caller list is
    assumed null-free, as a null entry would make assembly throw before a
    blueprint exists. -/
theorem merge_dedups_base_ids (user : List Json) (b : String)
    (hb : b ∈ baseIdStrings)
    (hconflict : ∃ a ∈ user, idStrOf a = some b)
    (_hnonull : Json.null ∉ user) :
    mergeAssertions user = BASE_ASSERTIONS ++ user.filter (fun a => !(isBaseIdDup a))
    ∧ (mergeAssertions user).countP (fun a => idStrOf a == some b) = 1
    ∧ (∀ a ∈ mergeAssertions user, idStrOf a = some b → a = baseVersionOf b)
    ∧ (∀ a ∈ user, idStrOf a = some b → a ∉ user.filter (fun x => !(isBaseIdDup x))) := by
  refine ⟨rfl, ?_, ?_, ?_⟩
  · unfold mergeAssertions
    rw [List.countP_append, countP_filtered_eq_zero hb]
    have hbase : BASE_ASSERTIONS.countP (fun a => idStrOf a == some b) = 1 := by
      fin_cases hb <;> decide
    omega
  · intro a ha hid
    rcases List.mem_append.mp ha with hmem | hmem
    · exact base_version_unique hb a hmem hid
    · exfalso
      have h2 := (List.mem_filter.mp hmem).2
      rw [isBaseIdDup_of_idStr hid hb] at h2
      simp at h2
  · intro a _ hid hmem
    have h2 := (List.mem_filter.mp hmem).2
    rw [isBaseIdDup_of_idStr hid hb] at h2
    simp at h2

theorem merge_dedups_base_ids_witness :
    ("BASE-X402-001" ∈ baseIdStrings)
    ∧ (mergeAssertions
        [Json.obj [("id", Json.str "BASE-X402-001"), ("assertion", Json.str "caller override")],
         Json.obj [("id", Json.str "Y"), ("assertion", Json.str "caller extra")]]).countP
        (fun a => idStrOf a == some "BASE-X402-001") = 1 := by
  refine ⟨by decide, ?_⟩
  exact (merge_dedups_base_ids
    [Json.obj [("id", Json.str "BASE-X402-001"), ("assertion", Json.str "caller override")],
     Json.obj [("id", Json.str "Y"), ("assertion", Json.str "caller extra")]]
    "BASE-X402-001" (by decide)
    ⟨Json.obj [("id", Json.str "BASE-X402-001"), ("assertion", Json.str "caller override")],
      by simp, rfl⟩
    (by simp)).2.1

/-! ## Claim C4: uniqueness of ids in the assembled list -/
/-- Claim C4 counterexample: a caller list with two distinct entries sharing
    the non-base id `"X"` passes validation and yields an assembled list with
    two entries of id `"X"` — its id projection is not duplicate-free. -/
theorem merged_ids_can_repeat :
    validBlueprintJson (Json.obj [("assertions", Json.arr
        [Json.obj [("id", Json.str "X"), ("assertion", Json.str "first")],
         Json.obj [("id", Json.str "X"), ("assertion", Json.str "second")]])]) = true
    ∧ (mergeAssertions
        [Json.obj [("id", Json.str "X"), ("assertion", Json.str "first")],
         Json.obj [("id", Json.str "X"), ("assertion", Json.str "second")]]).countP
        (fun a => idStrOf a == some "X") = 2
    ∧ ¬ List.Nodup ((mergeAssertions
        [Json.obj [("id", Json.str "X"), ("assertion", Json.str "first")],
         Json.obj [("id", Json.str "X"), ("assertion", Json.str "second")]]).map idStrOf) := by
  refine ⟨rfl, by decide, by decide⟩

theorem filtered_map_not_mem {b : String} (hb : baseIdStrings.contains b = true)
    (user : List Json) :
    some b ∉ (user.filter (fun a => !(isBaseIdDup a))).map idStrOf := by
  intro hmem
  rcases List.mem_map.mp hmem with ⟨a, haf, hid⟩
  have h2 := (List.mem_filter.mp haf).2
  have h3 : isBaseIdDup a = true := by
    unfold isBaseIdDup
    rw [idStrOf_eq_some.mp hid]
    exact hb
  rw [h3] at h2
  simp at h2

/-- Claim C4, as amended: the five base ids are pairwise distinct and never
    collide with a retained caller assertion, so the assembled list has
    duplicate-free ids whenever the caller's own list does; the claim's
    unconditional form fails because caller-internal duplicates of a non-base
    id are all retained (see the counterexample). -/
theorem merged_ids_nodup (user : List Json) (_hnonull : Json.null ∉ user)
    (huser : List.Nodup (user.map idStrOf)) :
    List.Nodup ((mergeAssertions user).map idStrOf) := by
  unfold mergeAssertions
  rw [List.map_append, List.nodup_append]
  refine ⟨by decide, ?_, ?_⟩
  · exact huser.sublist (List.Sublist.map idStrOf (List.filter_sublist user))
  · intro x hx
    have : ∃ b, x = some b ∧ baseIdStrings.contains b = true := by
      fin_cases hx <;> exact ⟨_, rfl, by decide⟩
    rcases this with ⟨b, rfl, hb⟩
    exact filtered_map_not_mem hb user

theorem merged_ids_nodup_witness :
    (Json.null ∉ [Json.obj [("id", Json.str "A")], Json.obj [("id", Json.str "B")]])
    ∧ List.Nodup ((mergeAssertions
        [Json.obj [("id", Json.str "A")], Json.obj [("id", Json.str "B")]]).map idStrOf) := by
  refine ⟨by simp, ?_⟩
  exact merged_ids_nodup [Json.obj [("id", Json.str "A")], Json.obj [("id", Json.str "B")]]
    (by simp) (by decide)

/-! ## Capture properties of the four searches -/
theorem searchA_cap {l cap : List Char} (h : searchA l = some cap) :
    cap ≠ [] ∧ cap.all isClassAlnumDashCI = true :=
  searchWith_spec matchAAt_spec h

theorem searchB_cap {l cap : List Char} (h : searchB l = some cap) :
    cap ≠ [] ∧ cap.all isClassRepoCI = true :=
  searchWith_spec matchBAt_spec h

theorem searchC_cap {l cap : List Char} (h : searchC l = some cap) :
    cap ≠ [] ∧ cap.all isClassAlnumDashCI = true :=
  searchWith_spec matchCAt_spec h

theorem searchD_cap {l cap : List Char} (h : searchD l = some cap) :
    cap ≠ [] ∧ cap.all isClassAlnumDashCI = true :=
  searchWith_spec matchDAt_spec h

/-! ## Character-set lemmas about the cleanup helpers -/
theorem all_of_subset {p : Char → Bool} {l l' : List Char} (hsub : l' ⊆ l)
    (h : l.all p = true) : l'.all p = true := by
  rw [List.all_eq_true] at h ⊢
  exact fun x hx => h x (hsub hx)

theorem collapseAux_all (b : Bool) (l : List Char) :
    (collapseAux b l).all isLowerAlnumDash = true := by
  induction l generalizing b with
  | nil => rfl
  | cons c rest ih =>
    unfold collapseAux
    split
    · next hc =>
      simp only [List.all_cons, Bool.and_eq_true]
      refine ⟨?_, ih false⟩
      simp only [isLowerAlnum, isLowerAlnumDash, Bool.or_eq_true] at hc ⊢
      tauto
    · split
      · exact ih true
      · simp only [List.all_cons, Bool.and_eq_true]
        exact ⟨by decide, ih true⟩

theorem dropLeadDash_subset (l : List Char) : dropLeadDash l ⊆ l := by
  unfold dropLeadDash
  split
  · exact List.subset_cons_self _ _
  · exact fun x hx => hx

theorem dropTrailDash_subset (l : List Char) : dropTrailDash l ⊆ l := by
  unfold dropTrailDash
  split
  · next t heq =>
    intro x hx
    have hx2 : x ∈ l.reverse := by
      rw [heq]
      exact List.mem_cons_of_mem _ (by simpa using hx)
    exact List.mem_reverse.mp hx2
  · exact fun x hx => hx

theorem trimEdgeDashes_subset (l : List Char) : trimEdgeDashes l ⊆ l :=
  fun _ hx => dropLeadDash_subset l (dropTrailDash_subset _ hx)

theorem stripRepoAffixes_subset (l : List Char) : stripRepoAffixes l ⊆ l := by
  unfold stripRepoAffixes
  have hsuf : ∀ l1 : List Char,
      (if endsWithL "-service".toList l1 then l1.take (l1.length - 8)
       else if endsWithL "-api".toList l1 then l1.take (l1.length - 4)
       else l1) ⊆ l1 := by
    intro l1
    split
    · exact List.take_subset _ _
    · split
      · exact List.take_subset _ _
      · exact fun x hx => hx
  split
  · exact fun x hx => List.drop_subset _ _ (hsuf _ hx)
  · split
    · exact fun x hx => List.drop_subset _ _ (hsuf _ hx)
    · split
      · exact fun x hx => List.drop_subset _ _ (hsuf _ hx)
      · exact hsuf l

theorem all_imp {p q : Char → Bool} {l : List Char} (himp : ∀ c, p c = true → q c = true)
    (h : l.all p = true) : l.all q = true := by
  rw [List.all_eq_true] at h ⊢
  exact fun x hx => himp x (h x hx)

theorem all_map_toLower_AD {l : List Char} (h : l.all isClassAlnumDashCI = true) :
    (l.map Char.toLower).all isLowerAlnumDash = true := by
  rw [List.all_map]
  exact all_imp (fun c hc => toLower_classAlnumDash hc) h

theorem all_map_toLower_repo {l : List Char} (h : l.all isClassRepoCI = true) :
    (l.map Char.toLower).all isLowerRepoChar = true := by
  rw [List.all_map]
  exact all_imp (fun c hc => toLower_classRepo hc) h

theorem strMk_ne_empty {l : List Char} (h : l ≠ []) : String.mk l ≠ "" := by
  intro he
  exact h (congrArg String.data he)

/-- `extractServiceName` always yields a non-empty string over `[a-z0-9-]`. -/
theorem extractServiceName_spec (s : String) :
    extractServiceName s ≠ "" ∧ (extractServiceName s).data.all isLowerAlnumDash = true := by
  unfold extractServiceName
  rcases hsa : searchA s.toList with _ | cap
  · simp only
    split
    · exact ⟨by decide, by decide⟩
    · next hfb =>
      have hall : (trimEdgeDashes (collapseNonAlnum ((s.toList.take 30).map Char.toLower))).all
          isLowerAlnumDash = true :=
        all_of_subset (trimEdgeDashes_subset _) (collapseAux_all false _)
      refine ⟨strMk_ne_empty ?_, hall⟩
      simpa [List.isEmpty_iff] using hfb
  · obtain ⟨hne, hcls⟩ := searchA_cap hsa
    simp only
    have hml : (cap.map Char.toLower).all isLowerAlnumDash = true := all_map_toLower_AD hcls
    have hfe : (cap.map Char.toLower).filter isLowerAlnumDash = cap.map Char.toLower :=
      List.filter_eq_self.mpr (fun a ha => (List.all_eq_true.mp hml) a ha)
    rw [hfe]
    refine ⟨strMk_ne_empty ?_, hml⟩
    simpa [List.map_eq_nil_iff] using hne

/-- `scanAssertions` can only return a non-empty name over `[a-z0-9_-]`
    (in fact over `[a-z0-9-]`: regex D's class has no underscore). -/
theorem scanAssertions_ok_spec {l : List Json} {n : String}
    (h : scanAssertions l = Except.ok n) :
    n ≠ "" ∧ n.data.all isLowerRepoChar = true := by
  induction l with
  | nil =>
    simp only [scanAssertions] at h
    injection h with h'
    subst h'
    exact ⟨by decide, by decide⟩
  | cons el rest ih =>
    simp only [scanAssertions] at h
    split at h
    · next a heq =>
      split at h
      · next cap hcap =>
        split at h
        · next hlen =>
          split at h
          · exact ih h
          · injection h with h'
            subst h'
            obtain ⟨hne, hcls⟩ := searchD_cap hcap
            constructor
            · exact strMk_ne_empty (by simpa [List.map_eq_nil_iff] using hne)
            · exact all_imp (fun c => lowerAlnumDash_le_repo) (all_map_toLower_AD hcls)
        · exact ih h
      · exact ih h
    · exact absurd h (by simp)

theorem ruleOne_spec {ctx name : List Char} (h : ruleOne ctx = some name) :
    name ≠ [] ∧ name.all isLowerRepoChar = true := by
  unfold ruleOne at h
  rcases hcap : searchB ctx with _ | cap <;> simp only [hcap] at h
  · exact absurd h (by simp)
  · split at h
    · next hlen =>
      injection h with h'
      subst h'
      obtain ⟨hne, hcls⟩ := searchB_cap hcap
      constructor
      · intro hnil
        rw [hnil] at hlen
        simp at hlen
      · exact all_of_subset (stripRepoAffixes_subset _) (all_map_toLower_repo hcls)
    · exact absurd h (by simp)

theorem ruleTwo_spec {ctx name : List Char} (h : ruleTwo ctx = some name) :
    name ≠ [] ∧ name.all isLowerRepoChar = true := by
  unfold ruleTwo at h
  rcases hcap : searchC ctx with _ | cap <;> simp only [hcap] at h
  · exact absurd h (by simp)
  · injection h with h'
    subst h'
    obtain ⟨hne, hcls⟩ := searchC_cap hcap
    constructor
    · simpa [List.map_eq_nil_iff] using hne
    · exact all_imp (fun c => lowerAlnumDash_le_repo) (all_map_toLower_AD hcls)

/-- Whatever name the post-context fallback chain returns is non-empty and
    drawn from `[a-z0-9_-]`. -/
theorem extractFCA_ok_spec {bp : Json} {ctx n : String}
    (h : extractFromContextAndAssertions bp ctx = Except.ok n) :
    n ≠ "" ∧ n.data.all isLowerRepoChar = true := by
  unfold extractFromContextAndAssertions at h
  rcases h1 : ruleOne ctx.toList with _ | name1 <;> simp only [h1] at h
  · rcases h2 : ruleTwo ctx.toList with _ | name2 <;> simp only [h2] at h
    · rcases hg : getField bp "assertions" with _ | v <;> simp only [hg] at h
      · exact absurd h (by simp)
      · rcases v with _ | b | i | s | l | fs
        · exact absurd h (by simp)
        · exact absurd h (by simp)
        · exact absurd h (by simp)
        · exact absurd h (by simp)
        · exact scanAssertions_ok_spec h
        · exact absurd h (by simp)
    · injection h with h'
      subst h'
      obtain ⟨hne, hcls⟩ := ruleTwo_spec h2
      exact ⟨strMk_ne_empty hne, hcls⟩
  · injection h with h'
    subst h'
    obtain ⟨hne, hcls⟩ := ruleOne_spec h1
    exact ⟨strMk_ne_empty hne, hcls⟩

/-- Whatever name `extractNameFromBlueprint` returns is non-empty and drawn
    from `[a-z0-9_-]`. -/
theorem extractBlueprint_ok_spec {bp : Json} {n : String}
    (h : extractNameFromBlueprintJ bp = Except.ok n) :
    n ≠ "" ∧ n.data.all isLowerRepoChar = true := by
  unfold extractNameFromBlueprintJ at h
  rcases hco : contextOfBlueprint bp with e | ctx <;> simp only [hco] at h
  · exact absurd h (by simp)
  · exact extractFCA_ok_spec h

/-- On a well-typed blueprint, the assertion scan cannot throw. -/
theorem scanAssertions_total {l : List Json}
    (h : l.all (fun el => match getField el "assertion" with
      | some (Json.str _) => true
      | _ => false) = true) :
    ∃ n, scanAssertions l = Except.ok n := by
  induction l with
  | nil => exact ⟨"x402-service", rfl⟩
  | cons el rest ih =>
    rw [List.all_cons, Bool.and_eq_true] at h
    obtain ⟨hel, hrest⟩ := h
    obtain ⟨n, hn⟩ := ih hrest
    simp only [scanAssertions]
    split
    · split
      · split
        · split
          · exact ⟨n, hn⟩
          · exact ⟨_, rfl⟩
        · exact ⟨n, hn⟩
      · exact ⟨n, hn⟩
    · next hbad =>
      exfalso
      rcases hg : getField el "assertion" with _ | v
      · rw [hg] at hel
        simp at hel
      · rcases v with _ | b | i | s | l2 | fs <;> rw [hg] at hel <;>
          first
            | (exact hbad _ hg)
            | simp at hel

/-- On a blueprint whose context field is a string or falsy, reading the
    context cannot throw. -/
theorem contextOfBlueprint_total {bp : Json}
    (hctx : (match getField bp "context" with
      | some v => !(jsTruthy v) || (match v with | Json.str _ => true | _ => false)
      | none => true) = true) :
    ∃ ctx, contextOfBlueprint bp = Except.ok ctx := by
  unfold contextOfBlueprint
  rcases hg : getField bp "context" with _ | v <;> simp only [hg] at hctx ⊢
  · exact ⟨"", rfl⟩
  · by_cases ht : jsTruthy v = true
    · rw [if_pos ht]
      rw [ht] at hctx
      simp only [Bool.not_true, Bool.false_or] at hctx
      rcases v with _ | b | i | s | l | fs
      · simp at hctx
      · simp at hctx
      · simp at hctx
      · exact ⟨s, rfl⟩
      · simp at hctx
      · simp at hctx
    · rw [if_neg ht]
      exact ⟨"", rfl⟩

/-- On a well-typed blueprint, name extraction never throws. -/
theorem extractBlueprint_total {bp : Json} (h : wellTypedBlueprint bp = true) :
    ∃ n, extractNameFromBlueprintJ bp = Except.ok n := by
  unfold wellTypedBlueprint at h
  rw [Bool.and_eq_true] at h
  obtain ⟨hctx, hasserts⟩ := h
  obtain ⟨ctx, hco⟩ := contextOfBlueprint_total hctx
  unfold extractNameFromBlueprintJ
  rw [hco]
  show ∃ n, extractFromContextAndAssertions bp ctx = Except.ok n
  unfold extractFromContextAndAssertions
  rcases h1 : ruleOne ctx.toList with _ | name1 <;> simp only
  · rcases h2 : ruleTwo ctx.toList with _ | name2 <;> simp only
    · rcases hg : getField bp "assertions" with _ | v <;> rw [hg] at hasserts
      · simp at hasserts
      · rcases v with _ | b | i | s | l | fs
        · simp at hasserts
        · simp at hasserts
        · simp at hasserts
        · simp at hasserts
        · simp only [hg]
          exact scanAssertions_total hasserts
        · simp at hasserts
    · exact ⟨_, rfl⟩
  · exact ⟨_, rfl⟩

/-! ## Claim C3: name safety -/
/-- Claim C3 counterexample: a well-typed blueprint whose context holds the
    repository URL `github.com/a/a_b` makes extraction return `"a_b"`, which
    does not match `^[a-z0-9-]+$` (it contains an underscore): the repo-URL
    capture class is `[a-z0-9_-]` and the cleanup never removes `_`. -/
theorem extractName_underscore_escapes :
    wellTypedBlueprint (Json.obj [("context", Json.str "github.com/a/a_b"),
        ("assertions", Json.arr [])]) = true
    ∧ extractNameFromBlueprintJ (Json.obj [("context", Json.str "github.com/a/a_b"),
        ("assertions", Json.arr [])]) = Except.ok "a_b"
    ∧ ("a_b" : String).data.all isLowerAlnumDash = false := by
  exact ⟨by decide, rfl, by decide⟩

/-- Claim C3, as amended: on every freeform spec, and on every well-typed
    blueprint (string or absent context, assertion entries with string texts),
    name extraction succeeds with a non-empty result; the freeform extractor's
    output always matches `^[a-z0-9-]+$`, while the blueprint extractor
    guarantees only `^[a-z0-9_-]+$` — an underscore can survive through the
    repo-URL rule (see the counterexample). -/
theorem extractName_safety :
    (∀ s : String, extractServiceName s ≠ ""
      ∧ (extractServiceName s).data.all isLowerAlnumDash = true)
    ∧ (∀ bp : Json, wellTypedBlueprint bp = true →
        ∃ n, extractNameFromBlueprintJ bp = Except.ok n
          ∧ n ≠ "" ∧ n.data.all isLowerRepoChar = true) := by
  constructor
  · exact extractServiceName_spec
  · intro bp hwt
    obtain ⟨n, hn⟩ := extractBlueprint_total hwt
    obtain ⟨hne, hcls⟩ := extractBlueprint_ok_spec hn
    exact ⟨n, hn, hne, hcls⟩

theorem extractName_safety_witness :
    extractServiceName "build a weather-alerts service" = "weather-alerts"
    ∧ extractServiceName "build a weather-alerts service" ≠ ""
    ∧ wellTypedBlueprint (Json.obj [("context", Json.str "service: invoices"),
        ("assertions", Json.arr [])]) = true
    ∧ ∃ n, extractNameFromBlueprintJ (Json.obj [("context", Json.str "service: invoices"),
        ("assertions", Json.arr [])]) = Except.ok n
        ∧ n ≠ "" ∧ n.data.all isLowerRepoChar = true := by
  refine ⟨rfl, (extractName_safety.1 "build a weather-alerts service").1, by decide, ?_⟩
  exact extractName_safety.2 (Json.obj [("context", Json.str "service: invoices"),
    ("assertions", Json.arr [])]) (by decide)

theorem repoPhase_calls (sn suf : String) (gh : String → Except String RepoInfo) :
    (repoPhase sn suf gh).1 = [ExtCall.ghCreate sn] ∨
    (repoPhase sn suf gh).1 = [ExtCall.ghCreate sn, ExtCall.ghCreate (sn ++ "-" ++ suf)] := by
  unfold repoPhase
  rcases h : gh sn with m | repo <;> simp only [h]
  · split
    · rcases h2 : gh (sn ++ "-" ++ suf) with m2 | repo2 <;> simp only [h2]
      · right; trivial
      · right; trivial
    · left; trivial
  · left; trivial

theorem afterName_calls_shape (mode : ValidMode) (sn : String) (env : BuildEnv) :
    (afterName mode sn env).calls
        = (repoPhase sn (lowerStr (shortIdOf env.randBase36)) env.gh).1
    ∨ (afterName mode sn env).calls
        = (repoPhase sn (lowerStr (shortIdOf env.randBase36)) env.gh).1
            ++ [ExtCall.dispatchJob ("Build: " ++ sn)] := by
  unfold afterName
  rcases hrp : repoPhase sn (lowerStr (shortIdOf env.randBase36)) env.gh with ⟨calls, res⟩
  simp only [hrp]
  rcases res with m | p
  · left; trivial
  · rcases p with ⟨rn, repo⟩
    rcases mode with spec | ub
    · simp only
      rcases env.dispatchIds with m | ids
      · right; trivial
      · rcases ids with _ | ⟨rid, rest⟩
        · right; trivial
        · by_cases hrid : rid = ""
          · subst hrid; right; trivial
          · simp only [if_neg hrid]; right; trivial
    · simp only
      rcases hs : assembleStructured ub repo.html_url with m | final
      · simp only [hs]; left; trivial
      · simp only [hs]
        rcases env.dispatchIds with m | ids
        · right; trivial
        · rcases ids with _ | ⟨rid, rest⟩
          · right; trivial
          · by_cases hrid : rid = ""
            · subst hrid; right; trivial
            · simp only [if_neg hrid]; right; trivial

theorem afterName_calls_ne_nil (mode : ValidMode) (sn : String) (env : BuildEnv) :
    (afterName mode sn env).calls ≠ [] := by
  rcases afterName_calls_shape mode sn env with h | h <;> rw [h] <;>
    rcases repoPhase_calls sn (lowerStr (shortIdOf env.randBase36)) env.gh with h1 | h1 <;>
      rw [h1] <;> simp

theorem afterName_calls_mem (mode : ValidMode) (sn : String) (env : BuildEnv) :
    ∀ c ∈ (afterName mode sn env).calls,
      c = ExtCall.ghCreate sn
      ∨ c = ExtCall.ghCreate (sn ++ "-" ++ lowerStr (shortIdOf env.randBase36))
      ∨ c = ExtCall.dispatchJob ("Build: " ++ sn) := by
  intro c hc
  rcases afterName_calls_shape mode sn env with h | h <;> rw [h] at hc <;>
    rcases repoPhase_calls sn (lowerStr (shortIdOf env.randBase36)) env.gh with h1 | h1 <;>
      rw [h1] at hc <;> simp at hc <;> tauto

theorem extractedName_ok_ne_empty {mode : ValidMode} {sn : String}
    (h : extractedName mode = Except.ok sn) : sn ≠ "" := by
  rcases mode with spec | ub
  · simp only [extractedName] at h
    injection h with h'
    subst h'
    exact (extractServiceName_spec spec).1
  · simp only [extractedName] at h
    rcases he : extractNameFromBlueprintJ ub with e | n <;> simp only [he] at h
    · exact absurd h (by simp)
    · injection h with h'
      subst h'
      exact (extractBlueprint_ok_spec he).1

theorem namePhase_ok_ne_empty {mode : ValidMode} {nm : Option String} {sn : String}
    (h : namePhase mode nm = Except.ok sn) : sn ≠ "" := by
  rcases nm with _ | n
  · exact extractedName_ok_ne_empty h
  · rw [show namePhase mode (some n)
        = (if !(n = "" : Bool) then Except.ok n else extractedName mode) from rfl] at h
    split at h
    · next hn =>
      injection h with h'
      subst h'
      simpa using hn
    · exact extractedName_ok_ne_empty h

theorem ne_empty_of_length_pos {s : String} (h : 0 < s.length) : s ≠ "" := by
  intro he
  rw [he] at h
  simp at h

theorem dash_append_ne_empty (a c : String) : a ++ "-" ++ c ≠ "" := by
  apply ne_empty_of_length_pos
  rw [String.length_append, String.length_append]
  have h1 : ("-" : String).length = 1 := rfl
  omega

/-- On a base-36 digit, upper-casing then lower-casing is the identity. -/
theorem toLower_toUpper_base36 {c : Char} (h : isBase36Digit c = true) :
    Char.toLower (Char.toUpper c) = c := by
  simp only [isBase36Digit, isDigitL, isLowerL, Bool.or_eq_true, Bool.and_eq_true,
    decide_eq_true_eq] at h
  have hformU : Char.toUpper c
      = if c.toNat ≥ 97 ∧ c.toNat ≤ 122 then Char.ofNat (c.toNat - 32) else c := rfl
  have hformL : Char.toLower (Char.toUpper c)
      = if (Char.toUpper c).toNat ≥ 65 ∧ (Char.toUpper c).toNat ≤ 90
        then Char.ofNat ((Char.toUpper c).toNat + 32) else Char.toUpper c := rfl
  rcases h with hd | hl
  · have hupper : Char.toUpper c = c := by
      rw [hformU, if_neg (by omega)]
    rw [hformL, hupper, if_neg (by omega)]
  · have hu : (Char.toUpper c).toNat = c.toNat - 32 := by
      rw [toNat_toUpper, if_pos (by omega)]
    rw [hformL, if_pos (by rw [hu]; omega), hu]
    have heq : c.toNat - 32 + 32 = c.toNat := by omega
    rw [heq]
    exact Char.ofNat_toNat c

theorem validate_freeform {cfg : Config} {s : String} (nm : Option String)
    (hs : s ≠ "") (hcfg : configured cfg = true) :
    validatePhase cfg ⟨some s, BlueprintField.absent, nm⟩ = Except.ok (ValidMode.freeform s) := by
  unfold validatePhase
  simp [specTruthy, bpTruthy, hs, hcfg]

/-! ## Claim C2: short-spec validation -/
/-- Claim C2 counterexample: the freeform spec `"short!!"` has length 7 < 10,
    yet on a configured server the request is not rejected — the handler
    creates a repository, dispatches the job and answers 201.  (The minimum
    spec length of the earlier revision, src/unnamed/part_000 line 102, is
    absent from src/index.tsx.) -/
theorem shortSpec_not_rejected :
    ("short!!" : String).length < 10
    ∧ buildHandler ⟨some "tok", some "0xmech", some "key"⟩
        ⟨some "short!!", BlueprintField.absent, none⟩
        ⟨fun n => Except.ok ⟨"https://github.com/u/" ++ n, "clone"⟩,
         "0.k3j9qhd2n1", "JOBDEF", Except.ok ["REQ1"], "http://x"⟩
      = ⟨BuildResponse.created "REQ1" "JOBDEF" "https://github.com/u/short"
           "http://x/status/REQ1" "https://explorer.jinn.network/workstreams/REQ1" 5 0 5,
         [ExtCall.ghCreate "short", ExtCall.dispatchJob "Build: short"]⟩ := by
  exact ⟨by decide, rfl⟩

/-- Claim C2, as amended: only the empty freeform spec is rejected at
    validation — as the neither-supplied 400, with no external calls; any
    non-empty spec, however short, passes validation, and on a configured
    server the handler proceeds to issue external calls. -/
theorem shortSpec_amended (cfg : Config) (env : BuildEnv) (nm : Option String) (s : String) :
    (buildHandler cfg ⟨some "", BlueprintField.absent, nm⟩ env
        = ⟨BuildResponse.badRequest "Either \x27spec\x27 or \x27blueprint\x27 is required", []⟩)
    ∧ (s ≠ "" → configured cfg = true →
        (buildHandler cfg ⟨some s, BlueprintField.absent, nm⟩ env).calls ≠ []) := by
  constructor
  · rfl
  · intro hs hcfg
    unfold buildHandler
    rw [validate_freeform nm hs hcfg]
    rcases hn : namePhase (ValidMode.freeform s) nm with r | sn
    · exfalso
      rcases nm with _ | n
      · simp [namePhase, extractedName] at hn
      · rw [show namePhase (ValidMode.freeform s) (some n)
            = (if !(n = "" : Bool) then Except.ok n else extractedName (ValidMode.freeform s))
            from rfl] at hn
        split at hn
        · exact absurd hn (by simp)
        · simp [extractedName] at hn
    · simp only [hn]
      exact afterName_calls_ne_nil (ValidMode.freeform s) sn env

theorem shortSpec_amended_witness :
    ("x!" : String) ≠ ""
    ∧ configured ⟨some "tok", some "0xmech", some "key"⟩ = true
    ∧ (buildHandler ⟨some "tok", some "0xmech", some "key"⟩
        ⟨some "x!", BlueprintField.absent, none⟩
        ⟨fun n => Except.ok ⟨"https://github.com/u/" ++ n, "clone"⟩,
         "0.k3j9qhd2n1", "JOBDEF", Except.ok ["REQ1"], "http://x"⟩).calls ≠ [] := by
  refine ⟨by decide, by decide, ?_⟩
  exact (shortSpec_amended ⟨some "tok", some "0xmech", some "key"⟩
    ⟨fun n => Except.ok ⟨"https://github.com/u/" ++ n, "clone"⟩,
     "0.k3j9qhd2n1", "JOBDEF", Except.ok ["REQ1"], "http://x"⟩ none "x!").2
    (by decide) (by decide)

/-! ## Claim C6: the retry-once policy and its suffix -/
/-- Claim C6 counterexample: in a run where the first creation attempt fails
    with a name-collision message, the retry uses a 3-character suffix — the
    code takes `substring(2, 5)` of the base-36 random string — so no
    4-character suffix t satisfies the claimed call pattern. -/
theorem retry_suffix_not_four :
    (buildHandler ⟨some "tok", some "0xmech", some "key"⟩
        ⟨some "a payments api please", BlueprintField.absent, some "svc"⟩
        ⟨fun n => if n = "svc"
            then Except.error "GitHub API error: name already exists on this account"
            else Except.ok ⟨"https://github.com/u/" ++ n, "clone"⟩,
         "0.abc123xyz", "JOBDEF", Except.ok ["REQ1"], "http://x"⟩).calls
      = [ExtCall.ghCreate "svc", ExtCall.ghCreate "svc-abc",
         ExtCall.dispatchJob "Build: svc"]
    ∧ ¬ ∃ t : String, t.length = 4
        ∧ (buildHandler ⟨some "tok", some "0xmech", some "key"⟩
            ⟨some "a payments api please", BlueprintField.absent, some "svc"⟩
            ⟨fun n => if n = "svc"
                then Except.error "GitHub API error: name already exists on this account"
                else Except.ok ⟨"https://github.com/u/" ++ n, "clone"⟩,
             "0.abc123xyz", "JOBDEF", Except.ok ["REQ1"], "http://x"⟩).calls
          = [ExtCall.ghCreate "svc", ExtCall.ghCreate ("svc-" ++ t),
             ExtCall.dispatchJob "Build: svc"] := by
  have hc : (buildHandler ⟨some "tok", some "0xmech", some "key"⟩
        ⟨some "a payments api please", BlueprintField.absent, some "svc"⟩
        ⟨fun n => if n = "svc"
            then Except.error "GitHub API error: name already exists on this account"
            else Except.ok ⟨"https://github.com/u/" ++ n, "clone"⟩,
         "0.abc123xyz", "JOBDEF", Except.ok ["REQ1"], "http://x"⟩).calls
      = [ExtCall.ghCreate "svc", ExtCall.ghCreate "svc-abc",
         ExtCall.dispatchJob "Build: svc"] := rfl
  refine ⟨hc, ?_⟩
  rintro ⟨t, ht4, hcalls⟩
  rw [hc] at hcalls
  have h3 : ("svc-" ++ t : String) = "svc-abc" := by
    have h := hcalls
    simp only [List.cons.injEq, ExtCall.ghCreate.injEq, ExtCall.dispatchJob.injEq] at h
    exact h.2.1.symm
  have h4 : ("svc-" : String).data ++ t.data = ("svc-" : String).data ++ ['a', 'b', 'c'] := by
    have := congrArg String.data h3
    rw [String.data_append] at this
    exact this
  have h5 : t.data = ['a', 'b', 'c'] := List.append_cancel_left h4
  have h6 : t.length = 3 := by
    show t.data.length = 3
    rw [h5]
    rfl
  omega

/-- Claim C6, as amended: on a creation failure whose message contains
    `"already exists"` the handler retries exactly once, with the original
    name, a hyphen, and the suffix `Math.random().toString(36).substring(2, 5)`
    lower-cased — which for any random fraction with at least three base-36
    digits is 3 characters of `[a-z0-9]`, not 4; any other failure propagates
    after the single attempt. -/
theorem retry_once_policy (sn rand m : String) (gh : String → Except String RepoInfo)
    (hfail : gh sn = Except.error m) :
    (containsSub m "already exists" = true →
      (repoPhase sn (lowerStr (shortIdOf rand)) gh).1
          = [ExtCall.ghCreate sn, ExtCall.ghCreate (sn ++ "-" ++ lowerStr (shortIdOf rand))]
      ∧ (repoPhase sn (lowerStr (shortIdOf rand)) gh).2
          = (gh (sn ++ "-" ++ lowerStr (shortIdOf rand))).map
              (fun r => (sn ++ "-" ++ lowerStr (shortIdOf rand), r)))
    ∧ (containsSub m "already exists" = false →
        repoPhase sn (lowerStr (shortIdOf rand)) gh = ([ExtCall.ghCreate sn], Except.error m))
    ∧ (∀ ds : List Char, rand.data = '0' :: '.' :: ds → 3 ≤ ds.length →
        ds.all isBase36Digit = true →
        (lowerStr (shortIdOf rand)).length = 3
        ∧ (lowerStr (shortIdOf rand)).data.all isBase36Digit = true) := by
  refine ⟨?_, ?_, ?_⟩
  · intro hcoll
    unfold repoPhase
    rw [hfail]
    simp only [hcoll, if_true]
    rcases h2 : gh (sn ++ "-" ++ lowerStr (shortIdOf rand)) with m2 | repo2 <;>
      simp only [h2, Except.map] <;> exact ⟨trivial, trivial⟩
  · intro hcoll
    unfold repoPhase
    rw [hfail]
    simp only [hcoll]
    rfl
  · intro ds hds hlen hall
    have htake_all : (ds.take 3).all isBase36Digit = true :=
      all_of_subset (List.take_subset _ _) hall
    have hmap : ((ds.take 3).map Char.toUpper).map Char.toLower = ds.take 3 := by
      rw [List.map_map]
      have hpt : ∀ c ∈ ds.take 3, (Char.toLower ∘ Char.toUpper) c = c := fun c hc =>
        toLower_toUpper_base36 ((List.all_eq_true.mp htake_all) c hc)
      rw [List.map_congr_left hpt, List.map_id']
    have hlist : (lowerStr (shortIdOf rand)).data = ds.take 3 := by
      show ((((rand.data.drop 2).take 3).map Char.toUpper).map Char.toLower) = ds.take 3
      rw [hds]
      simpa using hmap
    constructor
    · show (lowerStr (shortIdOf rand)).data.length = 3
      rw [hlist, List.length_take]
      omega
    · rw [hlist]
      exact htake_all

theorem retry_once_policy_witness :
    ((fun n => if n = "svc"
        then Except.error "GitHub API error: name already exists"
        else Except.ok (⟨"u", "c"⟩ : RepoInfo)) "svc"
      = Except.error "GitHub API error: name already exists")
    ∧ containsSub "GitHub API error: name already exists" "already exists" = true
    ∧ (repoPhase "svc" (lowerStr (shortIdOf "0.abc123xyz"))
        (fun n => if n = "svc"
          then Except.error "GitHub API error: name already exists"
          else Except.ok (⟨"u", "c"⟩ : RepoInfo))).1
        = [ExtCall.ghCreate "svc",
           ExtCall.ghCreate ("svc" ++ "-" ++ lowerStr (shortIdOf "0.abc123xyz"))]
    ∧ (lowerStr (shortIdOf "0.abc123xyz")).length = 3 := by
  refine ⟨rfl, by decide, ?_, ?_⟩
  · exact (retry_once_policy "svc" "0.abc123xyz" "GitHub API error: name already exists"
      (fun n => if n = "svc"
        then Except.error "GitHub API error: name already exists"
        else Except.ok (⟨"u", "c"⟩ : RepoInfo)) rfl).1 (by decide) |>.1
  · exact ((retry_once_policy "svc" "0.abc123xyz" "GitHub API error: name already exists"
      (fun n => if n = "svc"
        then Except.error "GitHub API error: name already exists"
        else Except.ok (⟨"u", "c"⟩ : RepoInfo)) rfl).2.2
      ['a', 'b', 'c', '1', '2', '3', 'x', 'y', 'z'] rfl (by decide) (by decide)).1

/-! ## Claim C8: the provisioned repository name -/
/-- Claim C8 counterexample: a request supplying the explicit name
    `"Bad_Name!"` (which is not in `[a-z0-9-]`) is passed to repository
    creation verbatim — the handler applies no sanitisation to a
    caller-supplied name. -/
theorem explicit_name_unsanitised :
    (buildHandler ⟨some "tok", some "0xmech", some "key"⟩
        ⟨none, BlueprintField.objVal (Json.obj [("assertions", Json.arr [])]),
         some "Bad_Name!"⟩
        ⟨fun n => Except.ok ⟨"https://github.com/u/" ++ n, "clone"⟩,
         "0.k3j9qhd2n1", "JOBDEF", Except.ok ["REQ1"], "http://x"⟩).calls
      = [ExtCall.ghCreate "Bad_Name!", ExtCall.dispatchJob "Build: Bad_Name!"]
    ∧ ("Bad_Name!" : String).data.all isLowerAlnumDash = false := by
  exact ⟨rfl, by decide⟩

/-- Claim C8, as amended: every name passed to repository creation is
    non-empty, but nothing stronger holds: an explicit caller name is used
    verbatim (see the counterexample), a regex-captured name may carry edge
    hyphens, and a repo-URL-derived name may contain underscores. -/
theorem repo_names_nonempty (cfg : Config) (body : BuildBody) (env : BuildEnv)
    (n : String) (hmem : ExtCall.ghCreate n ∈ (buildHandler cfg body env).calls) :
    n ≠ "" := by
  unfold buildHandler at hmem
  rcases hv : validatePhase cfg body with r | mode <;> simp only [hv] at hmem
  · simp at hmem
  · rcases hn : namePhase mode body.name with r | sn <;> simp only [hn] at hmem
    · simp at hmem
    · have hsn : sn ≠ "" := namePhase_ok_ne_empty hn
      rcases afterName_calls_mem mode sn env (ExtCall.ghCreate n) hmem with h | h | h
      · injection h with h'
        subst h'
        exact hsn
      · injection h with h'
        subst h'
        exact dash_append_ne_empty sn (lowerStr (shortIdOf env.randBase36))
      · exact absurd h (by simp)

theorem repo_names_nonempty_witness :
    (ExtCall.ghCreate "short" ∈ (buildHandler ⟨some "tok", some "0xmech", some "key"⟩
        ⟨some "short!!", BlueprintField.absent, none⟩
        ⟨fun n => Except.ok ⟨"https://github.com/u/" ++ n, "clone"⟩,
         "0.k3j9qhd2n1", "JOBDEF", Except.ok ["REQ1"], "http://x"⟩).calls)
    ∧ ("short" : String) ≠ "" := by
  refine ⟨by decide, ?_⟩
  exact repo_names_nonempty ⟨some "tok", some "0xmech", some "key"⟩
    ⟨some "short!!", BlueprintField.absent, none⟩
    ⟨fun n => Except.ok ⟨"https://github.com/u/" ++ n, "clone"⟩,
     "0.k3j9qhd2n1", "JOBDEF", Except.ok ["REQ1"], "http://x"⟩ "short" (by decide)

/-! ## Append lemmas for computing a regex-B match inside a larger context -/
theorem stripCI_append {pat l1 l2 r : List Char} (h : stripCI pat l1 = some r) :
    stripCI pat (l1 ++ l2) = some (r ++ l2) := by
  induction pat generalizing l1 r with
  | nil =>
    simp only [stripCI] at h ⊢
    injection h with h'
    subst h'
    rfl
  | cons pc ps ih =>
    rcases l1 with _ | ⟨c, cs⟩
    · simp [stripCI] at h
    · simp only [stripCI, List.cons_append] at h ⊢
      split at h
      · next hc => rw [if_pos hc]; exact ih h
      · exact absurd h (by simp)

theorem takeWhile_all_stop {p : Char → Bool} {l1 : List Char} (c : Char) (l2 : List Char)
    (h1 : l1.all p = true) (h2 : p c = false) :
    (l1 ++ c :: l2).takeWhile p = l1 ∧ (l1 ++ c :: l2).dropWhile p = c :: l2 := by
  induction l1 with
  | nil => simp [List.takeWhile_cons, List.dropWhile_cons, h2]
  | cons x xs ih =>
    rw [List.all_cons, Bool.and_eq_true] at h1
    obtain ⟨hx, hxs⟩ := h1
    obtain ⟨ht, hd⟩ := ih hxs
    simp [List.takeWhile_cons, List.dropWhile_cons, hx, ht, hd]

theorem takeWhile_all_self {p : Char → Bool} {l : List Char} (h : l.all p = true) :
    l.takeWhile p = l ∧ l.dropWhile p = [] := by
  induction l with
  | nil => exact ⟨rfl, rfl⟩
  | cons x xs ih =>
    rw [List.all_cons, Bool.and_eq_true] at h
    obtain ⟨hx, hxs⟩ := h
    obtain ⟨ht, hd⟩ := ih hxs
    simp [List.takeWhile_cons, List.dropWhile_cons, hx, ht, hd]

theorem takeWhile1_boundary {p : Char → Bool} {l1 : List Char} {c : Char} {l2 : List Char}
    (h1 : l1 ≠ []) (h2 : l1.all p = true) (h3 : p c = false) :
    takeWhile1 p (l1 ++ c :: l2) = some (l1, c :: l2) := by
  rcases l1 with _ | ⟨x, xs⟩
  · exact absurd rfl h1
  · rw [List.all_cons, Bool.and_eq_true] at h2
    obtain ⟨hx, hxs⟩ := h2
    obtain ⟨ht, hd⟩ := takeWhile_all_stop c l2 hxs h3
    simp only [List.cons_append, takeWhile1, hx, if_true, ht, hd]

theorem takeWhile1_all_end {p : Char → Bool} {l : List Char} (h1 : l ≠ [])
    (h2 : l.all p = true) : takeWhile1 p l = some (l, []) := by
  rcases l with _ | ⟨x, xs⟩
  · exact absurd rfl h1
  · rw [List.all_cons, Bool.and_eq_true] at h2
    obtain ⟨hx, hxs⟩ := h2
    obtain ⟨ht, hd⟩ := takeWhile_all_self hxs
    simp only [takeWhile1, hx, if_true, ht, hd]

theorem searchWith_hit {m : List Char → Option (List Char)} {l cap : List Char}
    (h : m l = some cap) : searchWith m l = some cap := by
  rcases l with _ | ⟨c, t⟩
  · simpa [searchWith] using h
  · simp only [searchWith, h]

theorem searchWith_drop {m : List Char → Option (List Char)} (k : Nat) (l : List Char)
    (h : ∀ i, i < k → m (l.drop i) = none) :
    searchWith m l = searchWith m (l.drop k) := by
  induction k with
  | zero => rfl
  | succ n ih =>
    rw [ih (fun i hi => h i (Nat.lt_succ_of_lt hi))]
    rcases hd : l.drop n with _ | ⟨c, t⟩
    · have h2 : l.drop (n + 1) = [] := by
        rw [← List.tail_drop, hd]
        rfl
      rw [h2]
    · have hmn : m (l.drop n) = none := h n (Nat.lt_succ_self n)
      rw [hd] at hmn
      have ht : l.drop (n + 1) = t := by
        rw [← List.tail_drop, hd]
        rfl
      rw [ht]
      simp only [searchWith, hmn]

/-! ## Claim C7: the `x402-invoice-api` naming scenario -/
/-- Regex B matched right at the URL occurrence: provided the text after the
    occurrence does not begin with a `[a-z0-9_-]/i` character (which would be
    swallowed by the greedy capture), the capture is exactly
    `x402-invoice-api`. -/
theorem matchBAt_invoice (s : List Char)
    (hbound : s = [] ∨ ∃ c rest, s = c :: rest ∧ isClassRepoCI c = false) :
    matchBAt ("github.com/acme/x402-invoice-api".toList ++ s)
      = some ("x402-invoice-api".toList) := by
  have h0 : stripCI "github.com/".toList "github.com/acme/x402-invoice-api".toList
      = some ("acme/x402-invoice-api".toList) := rfl
  have h1 : stripCI "github.com/".toList ("github.com/acme/x402-invoice-api".toList ++ s)
      = some ("acme".toList ++ '/' :: ("x402-invoice-api".toList ++ s)) :=
    stripCI_append h0
  have h3 : takeWhile1 (fun c => !(c = '/' : Bool))
      ("acme".toList ++ '/' :: ("x402-invoice-api".toList ++ s))
      = some ("acme".toList, '/' :: ("x402-invoice-api".toList ++ s)) :=
    takeWhile1_boundary (by decide) (by decide) (by decide)
  have h4 : ∃ r2, takeWhile1 isClassRepoCI ("x402-invoice-api".toList ++ s)
      = some ("x402-invoice-api".toList, r2) := by
    rcases hbound with hnil | ⟨c, rest, hcons, hcls⟩
    · subst hnil
      rw [List.append_nil]
      exact ⟨[], takeWhile1_all_end (by decide) (by decide)⟩
    · subst hcons
      exact ⟨c :: rest, takeWhile1_boundary (by decide) (by decide) hcls⟩
  obtain ⟨r2, h4⟩ := h4
  unfold matchBAt
  simp only [h1, h3, h4]

/-- Claim C7, as amended: for every blueprint whose context contains
    `github.com/acme/x402-invoice-api`, provided no earlier position of the
    context matches the repo-URL regex and the character right after the
    occurrence (if any) is outside `[a-z0-9_-]/i`, extraction returns exactly
    `"invoice"`: the capture is the repo segment, `x402-` and `-api` are
    stripped, and the 7-character result passes the length ≥ 2 check.  The
    boundary proviso is forced by the counterexample: a class character
    directly after the occurrence is swallowed by the greedy capture. -/
theorem invoice_scenario (p s : String) (asserts : List Json)
    (hearly : ∀ i, i < p.length →
        matchBAt ((p ++ "github.com/acme/x402-invoice-api" ++ s).data.drop i) = none)
    (hbound : s.data = [] ∨ ∃ c rest, s.data = c :: rest ∧ isClassRepoCI c = false) :
    extractNameFromBlueprintJ (Json.obj
        [("context", Json.str (p ++ "github.com/acme/x402-invoice-api" ++ s)),
         ("assertions", Json.arr asserts)]) = Except.ok "invoice" := by
  have hdata : (p ++ "github.com/acme/x402-invoice-api" ++ s).data
      = p.data ++ ("github.com/acme/x402-invoice-api".data ++ s.data) := by
    rw [String.data_append, String.data_append, List.append_assoc]
  have hctxne : (p ++ "github.com/acme/x402-invoice-api" ++ s) ≠ "" := by
    intro he
    have h2 := congrArg String.data he
    rw [hdata] at h2
    simp [List.append_eq_nil] at h2
  have hco : contextOfBlueprint (Json.obj
      [("context", Json.str (p ++ "github.com/acme/x402-invoice-api" ++ s)),
       ("assertions", Json.arr asserts)])
      = Except.ok (p ++ "github.com/acme/x402-invoice-api" ++ s) := by
    unfold contextOfBlueprint
    simp [getField, lookupField, jsTruthy, hctxne]
  have hsb : searchB (p ++ "github.com/acme/x402-invoice-api" ++ s).data
      = some ("x402-invoice-api".toList) := by
    unfold searchB
    rw [hdata]
    rw [searchWith_drop p.data.length _ (fun i hi => by
      have h3 := hearly i hi
      rw [hdata] at h3
      exact h3)]
    rw [List.drop_left]
    exact searchWith_hit (matchBAt_invoice s.data hbound)
  unfold extractNameFromBlueprintJ
  rw [hco]
  show extractFromContextAndAssertions _ (p ++ "github.com/acme/x402-invoice-api" ++ s)
      = Except.ok "invoice"
  unfold extractFromContextAndAssertions
  have hr1 : ruleOne (p ++ "github.com/acme/x402-invoice-api" ++ s).toList
      = some ("invoice".toList) := by
    unfold ruleOne
    rw [show (p ++ "github.com/acme/x402-invoice-api" ++ s).toList
        = (p ++ "github.com/acme/x402-invoice-api" ++ s).data from rfl, hsb]
    rfl
  rw [hr1]
  rfl

theorem invoice_scenario_witness :
    extractNameFromBlueprintJ (Json.obj
        [("context", Json.str ("Deploy the repo at " ++ "github.com/acme/x402-invoice-api"
            ++ " for me")),
         ("assertions", Json.arr [])]) = Except.ok "invoice" := by
  exact invoice_scenario "Deploy the repo at " " for me" []
    (by decide)
    (Or.inr ⟨' ', "for me".toList, rfl, by decide⟩)

/-- Claim C7 counterexample: the context `github.com/acme/x402-invoice-apifoo`
    contains the substring `github.com/acme/x402-invoice-api` with no
    earlier-matching repository URL, yet extraction returns
    `"invoice-apifoo"`, not `"invoice"`: the greedy capture `[a-z0-9_-]+`
    swallows the following class characters. -/
theorem invoice_scenario_strict_fails :
    containsSub "github.com/acme/x402-invoice-apifoo" "github.com/acme/x402-invoice-api" = true
    ∧ extractNameFromBlueprintJ (Json.obj
        [("context", Json.str "github.com/acme/x402-invoice-apifoo"),
         ("assertions", Json.arr [])]) = Except.ok "invoice-apifoo" := by
  exact ⟨by decide, rfl⟩

end X402

